import Mathlib

/-!
Verification development for the screentime-analyzer repository.

The Python sources are shallowly embedded in Lean:
  * numeric values (`duration_seconds`, raw timestamps) are modelled as
    exact rationals (`ℚ`) — the spec requires aggregates to be exact up to
    the numeric representation's own limits, so the embedding uses exact
    arithmetic;
  * `datetime` values are modelled by their Unix-epoch second count (`ℚ`):
    `datetime.fromtimestamp` / `datetime.timestamp` are mutually inverse up
    to floating point, so a datetime is identified with its timestamp;
  * Python dicts (which preserve insertion order) are modelled as
    association lists updated in place / appended at the end;
  * `list.sort(..., reverse=True)` — a stable descending sort — is modelled
    by `List.insertionSort` with a non-strict "greater or equal" relation,
    which places an earlier element before later ties exactly as Python's
    stable sort does;
  * SQL `NULL` is `Option.none`; the SQLite `UNIQUE` constraint treats two
    `NULL`s as distinct, which the embedded uniqueness test reproduces;
  * fallible control flow (`screentime_api.get_usage_data`) returns
    `Except`.
-/

namespace ScreenTime

/-- Apple Core Data epoch offset (seconds between 2001-01-01 and
1970-01-01), `APPLE_EPOCH_OFFSET` in `screentime.py`. -/
def APPLE_EPOCH_OFFSET : ℚ := 978307200

/-- `apple_time_to_datetime` from `screentime.py`: `None` maps to `None`,
otherwise the Unix timestamp of the resulting datetime is the Apple
timestamp plus the fixed offset. -/
def apple_time_to_datetime : Option ℚ → Option ℚ
  | none => none
  | some ts => some (ts + APPLE_EPOCH_OFFSET)

/-- `datetime_to_apple_time` from `screentime.py`: subtract the offset from
the datetime's Unix timestamp. -/
def datetime_to_apple_time (dt : ℚ) : ℚ :=
  dt - APPLE_EPOCH_OFFSET

/-- A normalized usage record, as produced by `get_app_usage`
(`screentime.py`): the dict with keys `app_name`, `duration_seconds`,
`start_time`, `end_time`.  Timestamps are canonical (post-conversion)
datetimes, absent when the source column was `NULL`. -/
structure UsageRecord where
  app_name : String
  duration_seconds : ℚ
  start_time : Option ℚ
  end_time : Option ℚ
deriving Repr, DecidableEq

/-- One step of the `app_totals` dict updates in `aggregate_by_app`
(`screentime.py` lines 119-123): `app_totals[app] += duration`, where a
missing key is first created (at the end, preserving insertion order) with
value 0. -/
def addToTotals : List (String × ℚ) → String → ℚ → List (String × ℚ)
  | [], app, d => [(app, d)]
  | (a, t) :: rest, app, d =>
      if a = app then (a, t + d) :: rest
      else (a, t) :: addToTotals rest app d

/-- The `app_totals` dict of `aggregate_by_app` after the loop, as an
insertion-ordered association list. -/
def appTotals (usage_data : List UsageRecord) : List (String × ℚ) :=
  usage_data.foldl (fun acc e => addToTotals acc e.app_name e.duration_seconds) []

/-- The comparison used by `result.sort(key=lambda x:
x["total_duration_seconds"], reverse=True)`: non-strict descending order on
the total, so that Python's stable sort keeps earlier ties first. -/
def byTotalDesc (x y : String × ℚ) : Prop := y.2 ≤ x.2

instance : DecidableRel byTotalDesc := fun x y => inferInstanceAs (Decidable (y.2 ≤ x.2))

/-- `aggregate_by_app` from `screentime.py`: group by `app_name` summing
`duration_seconds` (insertion-ordered dict), then stable-sort descending by
total.  Each output pair is the `{"app_name": ..,
"total_duration_seconds": ..}` dict. -/
def aggregate_by_app (usage_data : List UsageRecord) : List (String × ℚ) :=
  List.insertionSort byTotalDesc (appTotals usage_data)

lemma sumSnd_addToTotals (totals : List (String × ℚ)) (app : String) (d : ℚ) :
    ((addToTotals totals app d).map Prod.snd).sum = (totals.map Prod.snd).sum + d := by
  induction totals with
  | nil => simp [addToTotals]
  | cons hd tl ih =>
      obtain ⟨a, t⟩ := hd
      by_cases h : a = app
      · simp [addToTotals, h]
        ring
      · simp [addToTotals, h, ih]
        ring

lemma sumSnd_appTotals_fold (usage_data : List UsageRecord)
    (acc : List (String × ℚ)) :
    ((usage_data.foldl (fun acc e => addToTotals acc e.app_name e.duration_seconds) acc).map
        Prod.snd).sum =
      (acc.map Prod.snd).sum + (usage_data.map UsageRecord.duration_seconds).sum := by
  induction usage_data generalizing acc with
  | nil => simp
  | cons e tl ih =>
      simp only [List.foldl_cons, List.map_cons, List.sum_cons]
      rw [ih, sumSnd_addToTotals]
      ring

/-- C2: For every finite list of records, the sum of
`total_duration_seconds` over the output of `aggregate_by_app` equals the
sum of `duration_seconds` over the input records exactly — no record is
double-counted or dropped. -/
theorem aggregate_by_app_sum_preserved (usage_data : List UsageRecord) :
    ((aggregate_by_app usage_data).map Prod.snd).sum =
      (usage_data.map UsageRecord.duration_seconds).sum := by
  have hperm : List.Perm (aggregate_by_app usage_data) (appTotals usage_data) :=
    List.perm_insertionSort _ _
  have := (hperm.map Prod.snd).sum_eq
  rw [this]
  have := sumSnd_appTotals_fold usage_data []
  simpa [appTotals] using this

lemma keys_addToTotals (totals : List (String × ℚ)) (app : String) (d : ℚ) :
    (addToTotals totals app d).map Prod.fst =
      if app ∈ totals.map Prod.fst then totals.map Prod.fst
      else totals.map Prod.fst ++ [app] := by
  induction totals with
  | nil => simp [addToTotals]
  | cons hd tl ih =>
      obtain ⟨a, t⟩ := hd
      by_cases h : a = app
      · simp [addToTotals, h]
      · by_cases hmem : app ∈ tl.map Prod.fst
        · simp [addToTotals, h, ih, hmem, Ne.symm h]
        · simp [addToTotals, h, ih, hmem, Ne.symm h]

lemma nodup_keys_addToTotals (totals : List (String × ℚ)) (app : String) (d : ℚ)
    (h : (totals.map Prod.fst).Nodup) :
    ((addToTotals totals app d).map Prod.fst).Nodup := by
  rw [keys_addToTotals]
  by_cases hmem : app ∈ totals.map Prod.fst
  · simpa [hmem] using h
  · simp [hmem, List.nodup_append, h]

lemma nodup_keys_appTotals_fold (usage_data : List UsageRecord)
    (acc : List (String × ℚ)) (h : (acc.map Prod.fst).Nodup) :
    (((usage_data.foldl (fun acc e => addToTotals acc e.app_name e.duration_seconds) acc).map
        Prod.fst)).Nodup := by
  induction usage_data generalizing acc with
  | nil => simpa using h
  | cons e tl ih =>
      simp only [List.foldl_cons]
      exact ih _ (nodup_keys_addToTotals _ _ _ h)

instance : IsTotal (String × ℚ) byTotalDesc :=
  ⟨fun a b => le_total b.2 a.2⟩

instance : IsTrans (String × ℚ) byTotalDesc :=
  ⟨fun _ _ _ hab hbc => le_trans hbc hab⟩

lemma filter_orderedInsert {α : Type} (r : α → α → Prop) [DecidableRel r]
    (p : α → Bool) (hp : ∀ a b, p a = true → p b = true → r a b)
    (a : α) (l : List α) :
    (List.orderedInsert r a l).filter p =
      if p a then a :: l.filter p else l.filter p := by
  induction l with
  | nil => cases hpa : p a <;> simp [List.orderedInsert, List.filter_cons, hpa]
  | cons b l ih =>
      by_cases hr : r a b
      · cases hpa : p a <;>
          simp [List.orderedInsert, hr, List.filter_cons, hpa]
      · cases hpa : p a with
        | false =>
            cases hpb : p b <;>
              simp [List.orderedInsert, hr, List.filter_cons, hpa, hpb, ih]
        | true =>
            have hpb : p b = false := by
              cases hpb : p b with
              | false => rfl
              | true => exact absurd (hp a b hpa hpb) hr
            simp [List.orderedInsert, hr, List.filter_cons, hpa, hpb, ih]

lemma filter_insertionSort {α : Type} (r : α → α → Prop) [DecidableRel r]
    (p : α → Bool) (hp : ∀ a b, p a = true → p b = true → r a b)
    (l : List α) :
    (List.insertionSort r l).filter p = l.filter p := by
  induction l with
  | nil => rfl
  | cons a l ih =>
      rw [List.insertionSort, filter_orderedInsert r p hp, ih]
      cases hpa : p a <;> simp [List.filter_cons, hpa]

/-- C6: `aggregate_by_app` returns one entry per distinct `app_name` (the
output keys are pairwise distinct), sorted descending by total duration;
ties between equal totals keep the first-seen (insertion) order of the
grouping dict, i.e. filtering the output to any fixed total value gives
exactly the corresponding filter of the insertion-ordered totals dict; and
on the input `[("A",100,T0,T0+100),("B",50,T0,T0+50),("A",30,T1,T1+30)]`
the result is exactly `[("A",130),("B",50)]` in that order. -/
theorem aggregate_by_app_spec (usage_data : List UsageRecord) :
    ((aggregate_by_app usage_data).map Prod.fst).Nodup ∧
      List.Sorted byTotalDesc (aggregate_by_app usage_data) ∧
      (∀ q : ℚ,
        (aggregate_by_app usage_data).filter (fun x => decide (x.2 = q)) =
          (appTotals usage_data).filter (fun x => decide (x.2 = q))) ∧
      (∀ t0 t1 : ℚ,
        aggregate_by_app
            [⟨"A", 100, some t0, some (t0 + 100)⟩,
             ⟨"B", 50, some t0, some (t0 + 50)⟩,
             ⟨"A", 30, some t1, some (t1 + 30)⟩] =
          [("A", 130), ("B", 50)]) := by
  refine ⟨?_, ?_, ?_, ?_⟩
  · have hperm : List.Perm (aggregate_by_app usage_data) (appTotals usage_data) :=
      List.perm_insertionSort _ _
    exact (hperm.map Prod.fst).nodup_iff.mpr
      (nodup_keys_appTotals_fold usage_data [] (by simp))
  · exact List.sorted_insertionSort byTotalDesc _
  · intro q
    refine filter_insertionSort byTotalDesc _ ?_ _
    intro a b ha hb
    have ha' : a.2 = q := by simpa using ha
    have hb' : b.2 = q := by simpa using hb
    simp [byTotalDesc, ha', hb']
  · intro t0 t1
    norm_num [aggregate_by_app, appTotals, addToTotals, List.insertionSort,
      List.orderedInsert, byTotalDesc]

/-- A record as uploaded to / stored in the server-side SQLite database
(`screentime_api.py`): `app_name TEXT NOT NULL`, `duration_seconds REAL NOT
NULL`, `start_time TEXT` and `end_time TEXT` both nullable (`UploadRecord`
has `Optional[str]` timestamps).  The surrogate `id` column is the row's
position in the list. -/
structure ServerRecord where
  app_name : String
  duration_seconds : ℚ
  start_time : Option String
  end_time : Option String
deriving Repr, DecidableEq

/-- The SQLite `UNIQUE(app_name, start_time, end_time)` constraint test
between a stored row and a candidate row.  SQL `NULL` (here `none`) is
distinct from every value including another `NULL`, so a conflict requires
both timestamp columns to be non-NULL and equal in both rows. -/
def sameKey (r s : ServerRecord) : Bool :=
  decide (r.app_name = s.app_name) &&
    (match r.start_time, s.start_time with
     | some a, some b => decide (a = b)
     | _, _ => false) &&
    (match r.end_time, s.end_time with
     | some a, some b => decide (a = b)
     | _, _ => false)

/-- One `INSERT OR IGNORE` statement of `insert_usage_records`
(`screentime_api.py` lines 172-187): the row is appended unless some
existing row violates the unique constraint, in which case the statement is
a silent no-op; the returned flag says whether a net-new row was created
(this is what `conn.total_changes` tracking observes). -/
def insertOne (rows : List ServerRecord) (r : ServerRecord) :
    List ServerRecord × Bool :=
  if rows.any (fun s => sameKey s r) then (rows, false)
  else (rows ++ [r], true)

/-- `insert_usage_records` from `screentime_api.py`: fold the upload batch
through `INSERT OR IGNORE`, counting net-new rows (the `inserted =
conn.total_changes` bookkeeping equals the number of statements that
actually inserted).  Returns the final table contents and the count. -/
def insert_usage_records (rows : List ServerRecord) (records : List ServerRecord) :
    List ServerRecord × Nat :=
  records.foldl
    (fun st r =>
      let step := insertOne st.1 r
      (step.1, st.2 + if step.2 then 1 else 0))
    (rows, 0)

lemma sameKey_symm (r s : ServerRecord) : sameKey r s = sameKey s r := by
  unfold sameKey
  rcases r with ⟨ra, rd, rs, re⟩
  rcases s with ⟨sa, sd, ss, se⟩
  rcases rs with _ | a <;> rcases ss with _ | b <;>
    rcases re with _ | c <;> rcases se with _ | d <;>
    simp [eq_comm, Bool.and_comm]

lemma sameKey_refl_of_nonNull (r : ServerRecord)
    (hs : r.start_time.isSome) (he : r.end_time.isSome) :
    sameKey r r = true := by
  unfold sameKey
  rcases r with ⟨ra, rd, rs, re⟩
  rcases rs with _ | a
  · simp at hs
  · rcases re with _ | b
    · simp at he
    · simp

lemma sameKey_false_of_null (s r : ServerRecord)
    (h : r.start_time = none ∨ r.end_time = none) :
    sameKey s r = false := by
  unfold sameKey
  rcases h with h | h <;> rw [h] <;>
    rcases s with ⟨sa, sd, ss, se⟩ <;>
    rcases ss with _ | a <;> rcases se with _ | b <;>
    rcases r with ⟨ra, rd, rs, re⟩ <;>
    rcases rs with _ | c <;> rcases re with _ | d <;>
    simp_all [sameKey]

lemma insert_usage_records_count_shift (records : List ServerRecord)
    (rows : List ServerRecord) (n : Nat) :
    (records.foldl
        (fun st r =>
          let step := insertOne st.1 r
          (step.1, st.2 + if step.2 then 1 else 0))
        (rows, n)) =
      ((records.foldl
          (fun st r =>
            let step := insertOne st.1 r
            (step.1, st.2 + if step.2 then 1 else 0))
          (rows, 0)).1,
        n + (records.foldl
          (fun st r =>
            let step := insertOne st.1 r
            (step.1, st.2 + if step.2 then 1 else 0))
          (rows, 0)).2) := by
  induction records generalizing rows n with
  | nil => simp
  | cons r tl ih =>
      simp only [List.foldl_cons]
      rw [ih ((insertOne rows r).1) (n + if (insertOne rows r).2 then 1 else 0),
        ih ((insertOne rows r).1) (0 + if (insertOne rows r).2 then 1 else 0)]
      simp [Prod.ext_iff]
      omega

lemma insert_usage_records_all_new (records : List ServerRecord)
    (rows : List ServerRecord)
    (hnew : ∀ r ∈ records, ∀ s ∈ rows, sameKey s r = false)
    (hnn : ∀ r ∈ records, r.start_time.isSome ∧ r.end_time.isSome)
    (hdist : records.Pairwise (fun a b => sameKey a b = false)) :
    insert_usage_records rows records = (rows ++ records, records.length) := by
  induction records generalizing rows with
  | nil => simp [insert_usage_records]
  | cons r tl ih =>
      have hstep : insertOne rows r = (rows ++ [r], true) := by
        unfold insertOne
        have : rows.any (fun s => sameKey s r) = false := by
          simp only [List.any_eq_false]
          intro s hs
          simp [hnew r (by simp) s hs]
        simp [this]
      have htl : insert_usage_records (rows ++ [r]) tl =
          ((rows ++ [r]) ++ tl, tl.length) := by
        refine ih (rows ++ [r]) ?_ ?_ (List.Pairwise.of_cons hdist)
        · intro x hx s hs
          rcases List.mem_append.mp hs with hs | hs
          · exact hnew x (List.mem_cons_of_mem _ hx) s hs
          · have hrx : sameKey r x = false :=
              (List.pairwise_cons.mp hdist).1 x hx
            have : s = r := by simpa using hs
            rw [this, hrx]
        · intro x hx
          exact hnn x (List.mem_cons_of_mem _ hx)
      unfold insert_usage_records at htl ⊢
      simp only [List.foldl_cons, hstep]
      rw [insert_usage_records_count_shift, htl]
      simp [Nat.add_comm]

lemma insert_usage_records_all_dup (records : List ServerRecord)
    (rows : List ServerRecord)
    (hdup : ∀ r ∈ records, ∃ s ∈ rows, sameKey s r = true) :
    insert_usage_records rows records = (rows, 0) := by
  induction records generalizing rows with
  | nil => simp [insert_usage_records]
  | cons r tl ih =>
      have hstep : insertOne rows r = (rows, false) := by
        unfold insertOne
        obtain ⟨s, hs, hk⟩ := hdup r (by simp)
        have : rows.any (fun s => sameKey s r) = true :=
          List.any_eq_true.mpr ⟨s, hs, by simp [hk]⟩
        simp [this]
      have htl : insert_usage_records rows tl = (rows, 0) :=
        ih rows (fun x hx => hdup x (List.mem_cons_of_mem _ hx))
      unfold insert_usage_records at htl ⊢
      simp only [List.foldl_cons, hstep]
      exact htl

/-- C1: For every batch `R` of `N` records all having non-null `start_time`
and `end_time` and pairwise-distinct dedup identities (per the spec, a
record *set*: the identity of a record is the triple `(app_name,
start_time, end_time)`), inserting `R` into an empty store returns `N`,
and immediately re-inserting the same `R` returns `0`; moreover a record
whose triple already exists in the store is silently ignored (never an
error: the result is the unchanged store and count `0`), so the count
reflects only net-new rows, not submitted records. -/
theorem insert_idempotent (R : List ServerRecord)
    (hnn : ∀ r ∈ R, r.start_time.isSome ∧ r.end_time.isSome)
    (hdist : R.Pairwise (fun a b => sameKey a b = false)) :
    (insert_usage_records [] R).2 = R.length ∧
      (insert_usage_records (insert_usage_records [] R).1 R).2 = 0 ∧
      (∀ rows r, (∃ s ∈ rows, sameKey s r = true) →
        insert_usage_records rows [r] = (rows, 0)) := by
  have hfirst : insert_usage_records [] R = (R, R.length) := by
    simpa using insert_usage_records_all_new R [] (by simp) hnn hdist
  refine ⟨by rw [hfirst], ?_, ?_⟩
  · rw [hfirst]
    have : insert_usage_records R R = (R, 0) := by
      refine insert_usage_records_all_dup R R ?_
      intro r hr
      exact ⟨r, hr, sameKey_refl_of_nonNull r (hnn r hr).1 (hnn r hr).2⟩
    rw [this]
  · intro rows r hex
    exact insert_usage_records_all_dup [r] rows (by simpa using hex)

/-- C1 witness: a concrete two-record batch with non-null timestamps —
first insert returns 2, the repeat returns 0, and a duplicate of a stored
triple is ignored with count 0. -/
theorem insert_idempotent_witness :
    (insert_usage_records []
        [⟨"A", 100, some "t0", some "t1"⟩, ⟨"B", 50, some "t0", some "t2"⟩]).2 = 2 ∧
      (insert_usage_records
          (insert_usage_records []
            [⟨"A", 100, some "t0", some "t1"⟩, ⟨"B", 50, some "t0", some "t2"⟩]).1
          [⟨"A", 100, some "t0", some "t1"⟩, ⟨"B", 50, some "t0", some "t2"⟩]).2 = 0 ∧
      (∀ rows r, (∃ s ∈ rows, sameKey s r = true) →
        insert_usage_records rows [r] = (rows, 0)) := by
  refine insert_idempotent
    [⟨"A", 100, some "t0", some "t1"⟩, ⟨"B", 50, some "t0", some "t2"⟩]
    ?_ ?_
  · decide
  · decide

/-- C3: a record with a `NULL` (absent) `start_time` or `end_time` is never
deduplicated by the unique constraint (SQL `NULL`s compare distinct):
inserting it is always counted as a net-new row whatever the store already
contains, and inserting the exact same such record twice into an empty
store creates two rows, both calls counting it as inserted. -/
theorem insert_null_not_deduplicated (r : ServerRecord)
    (h : r.start_time = none ∨ r.end_time = none) :
    (∀ rows, insert_usage_records rows [r] = (rows ++ [r], 1)) ∧
      insert_usage_records [] [r] = ([r], 1) ∧
      insert_usage_records (insert_usage_records [] [r]).1 [r] = ([r, r], 1) := by
  have hone : ∀ rows, insert_usage_records rows [r] = (rows ++ [r], 1) := by
    intro rows
    have hstep : insertOne rows r = (rows ++ [r], true) := by
      unfold insertOne
      have : rows.any (fun s => sameKey s r) = false := by
        simp only [List.any_eq_false]
        intro s _
        simp [sameKey_false_of_null s r h]
      simp [this]
    simp [insert_usage_records, hstep]
  refine ⟨hone, ?_, ?_⟩
  · simpa using hone []
  · rw [show (insert_usage_records [] [r]).1 = [r] by simp [hone []]]
    simpa using hone [r]

/-- C3 witness: the concrete record `("A", 5, NULL, NULL)` inserted twice
into an empty store yields two rows, counted 1 each time. -/
theorem insert_null_not_deduplicated_witness :
    (∀ rows, insert_usage_records rows [⟨"A", 5, none, none⟩] =
      (rows ++ [⟨"A", 5, none, none⟩], 1)) ∧
      insert_usage_records [] [⟨"A", 5, none, none⟩] = ([⟨"A", 5, none, none⟩], 1) ∧
      insert_usage_records (insert_usage_records [] [⟨"A", 5, none, none⟩]).1
          [⟨"A", 5, none, none⟩] =
        ([⟨"A", 5, none, none⟩, ⟨"A", 5, none, none⟩], 1) :=
  insert_null_not_deduplicated ⟨"A", 5, none, none⟩ (Or.inl rfl)

/-- Outcome of attempting the primary local extraction
(`copy_database_to_temp` + `get_app_usage`) inside `get_usage_data`
(`screentime_api.py` lines 289-307): success with records, a
`PermissionError`, or any other exception. -/
inductive LocalOutcome where
  | ok (records : List UsageRecord)
  | permissionError
  | otherError
deriving Repr, DecidableEq

/-- The two `HTTPException`s `get_usage_data` can raise: status 403
(permission denied) and status 503 (no data available). -/
inductive ApiError where
  | forbidden
  | serviceUnavailable
deriving Repr, DecidableEq

/-- `get_usage_data` from `screentime_api.py` (lines 280-319), embedded as
a function of the branch-deciding state: `hasLocalDb` is `HAS_LOCAL_DB and
DEFAULT_DB_PATH.exists()`, `localResult` the outcome of the primary
extraction, `serverDbExists` whether `SERVER_DB_PATH` exists, and
`serverData` what `get_server_usage` would return.  A `PermissionError`
from the local path is re-raised as a 403 `HTTPException`; any *other*
exception falls through to the server database; if neither source is
available the function raises a 503. -/
def get_usage_data (hasLocalDb : Bool) (localResult : LocalOutcome)
    (serverDbExists : Bool) (serverData : List UsageRecord) :
    Except ApiError (List UsageRecord) :=
  if hasLocalDb then
    match localResult with
    | .ok rs => .ok rs
    | .permissionError => .error .forbidden
    | .otherError =>
        if serverDbExists then .ok serverData else .error .serviceUnavailable
  else
    if serverDbExists then .ok serverData else .error .serviceUnavailable

/-- C4 counterexample: when the local extraction raises a permission-denied
error while the secondary SyncStore exists and holds data, `get_usage_data`
does *not* fall back to it — it aborts with the 403 error, so the result is
not the SyncStore's data. -/
theorem permission_fallback_counterexample :
    get_usage_data true LocalOutcome.permissionError true
        [⟨"A", 5, none, none⟩] = Except.error ApiError.forbidden ∧
      get_usage_data true LocalOutcome.permissionError true
          [⟨"A", 5, none, none⟩] ≠ Except.ok [⟨"A", 5, none, none⟩] := by
  refine ⟨rfl, ?_⟩
  intro h
  exact Except.noConfusion h

/-- C4 (amended): in the dual-mode server deployment, a permission-denied
error from the primary local extraction aborts the request with a 403
error (it is never caught for fallback), while any *other* extraction
failure makes `get_usage_data` fall back to querying the secondary
SyncStore. -/
theorem extraction_error_fallback (serverData : List UsageRecord) :
    (get_usage_data true LocalOutcome.otherError true serverData =
        Except.ok serverData) ∧
      (∀ serverDbExists,
        get_usage_data true LocalOutcome.permissionError serverDbExists serverData =
          Except.error ApiError.forbidden) := by
  exact ⟨rfl, fun _ => rfl⟩

/-- `format_duration` from `screentime.py`: split a non-negative duration
into hours/minutes/seconds with floor arithmetic (Python `//` and `%` on
non-negative values), render the non-zero parts, and join them with a
single space.  Negative input renders as `"0s"` (the `None` guard of the
source lies outside this numeric domain). -/
def format_duration (seconds : ℚ) : String :=
  if seconds < 0 then "0s"
  else
    let hours : ℤ := ⌊seconds / 3600⌋
    let minutes : ℤ := ⌊(seconds - 3600 * hours) / 60⌋
    let secs : ℤ := ⌊seconds - 60 * ⌊seconds / 60⌋⌋
    let parts₁ : List String := if 0 < hours then [toString hours ++ "h"] else []
    let parts₂ : List String :=
      if 0 < minutes then parts₁ ++ [toString minutes ++ "m"] else parts₁
    let parts₃ : List String :=
      if 0 < secs ∨ parts₂ = [] then parts₂ ++ [toString secs ++ "s"] else parts₂
    String.intercalate " " parts₃

/-- The summary-mode CSV serialization (`export_csv` with
`summary_mode=True` in `screentime.py`, identically the `/export` CSV
summary branch of `screentime_api.py`): the fixed header line followed by
one `app_name,total_duration_seconds,total_duration_formatted` line per
aggregate row. -/
def export_csv_summary (data : List (String × ℚ)) : List String :=
  "app_name,total_duration_seconds,total_duration_formatted" ::
    data.map fun row =>
      row.1 ++ "," ++ toString row.2 ++ "," ++ format_duration row.2

/-- C8 counterexample: `format_duration` joins the parts with a space, so
130 seconds renders as `"2m 10s"`, not `"2m10s"`, and the corresponding
summary CSV row is `A,130,2m 10s`, not `A,130,2m10s`. -/
theorem csv_duration_format_counterexample :
    format_duration 130 ≠ "2m10s" ∧
      export_csv_summary [("A", 130), ("B", 50)] ≠
        ["app_name,total_duration_seconds,total_duration_formatted",
         "A,130,2m10s", "B,50,50s"] := by
  have h130 : format_duration 130 = "2m 10s" := by
    norm_num [format_duration]
    rfl
  have h50 : format_duration 50 = "50s" := by
    norm_num [format_duration]
    rfl
  constructor
  · rw [h130]
    decide
  · simp only [export_csv_summary, List.map_cons, List.map_nil, h130, h50]
    decide

/-- C8 (amended): exporting the aggregate `[("A",130),("B",50)]` in summary
CSV mode produces the header
`app_name,total_duration_seconds,total_duration_formatted` followed by the
row `A,130,2m 10s` and the row `B,50,50s` — `format_duration` renders 130
seconds as `"2m 10s"` (minute and second parts joined by a space) and 50
seconds as `"50s"`. -/
theorem csv_summary_export_example :
    export_csv_summary [("A", 130), ("B", 50)] =
        ["app_name,total_duration_seconds,total_duration_formatted",
         "A,130,2m 10s", "B,50,50s"] ∧
      format_duration 130 = "2m 10s" ∧ format_duration 50 = "50s" := by
  have h130 : format_duration 130 = "2m 10s" := by
    norm_num [format_duration]
    rfl
  have h50 : format_duration 50 = "50s" := by
    norm_num [format_duration]
    rfl
  refine ⟨?_, h130, h50⟩
  simp only [export_csv_summary, List.map_cons, List.map_nil, h130, h50]
  decide

/-- One update of the nested `daily_data` dict in `get_daily_breakdown`
(`screentime_api.py` lines 465-475, identically `print_daily_summary` in
`screentime.py`): `daily_data[date_key][app] += duration`, creating the
missing outer (date) entry at the end in insertion order and delegating the
inner (per-app) dict update to `addToTotals`. -/
def updateDaily (daily : List (Int × List (String × ℚ))) (d : Int)
    (app : String) (dur : ℚ) : List (Int × List (String × ℚ)) :=
  match daily with
  | [] => [(d, addToTotals [] app dur)]
  | (k, apps) :: rest =>
      if k = d then (k, addToTotals apps app dur) :: rest
      else (k, apps) :: updateDaily rest d app dur

/-- The `daily_data` dict after the grouping loop of `get_daily_breakdown`:
records lacking a `start_time` are skipped, others are bucketed under the
calendar date of their start time.  `dateOf` abstracts
`entry["start_time"].date()` (the host's local-time calendar-date map). -/
def daily_data (dateOf : ℚ → Int) (usage_data : List UsageRecord) :
    List (Int × List (String × ℚ)) :=
  usage_data.foldl
    (fun acc e =>
      match e.start_time with
      | none => acc
      | some t => updateDaily acc (dateOf t) e.app_name e.duration_seconds)
    []

/-- A `DailyBreakdown` response item of `screentime_api.py`: the date, the
day's total, and the (truncated) per-app list. -/
structure DailyBucket where
  date : Int
  total_duration_seconds : ℚ
  apps : List (String × ℚ)
deriving Repr, DecidableEq

/-- The comparison behind `sorted(daily_data.keys(), reverse=True)`:
non-strict descending order on the date key. -/
def byDateDesc (x y : Int × List (String × ℚ)) : Prop := y.1 ≤ x.1

instance : DecidableRel byDateDesc := fun x y => inferInstanceAs (Decidable (y.1 ≤ x.1))

/-- `get_daily_breakdown` from `screentime_api.py` (lines 464-502): group
into `daily_data`, then for each date in descending order emit a bucket
whose `total_duration_seconds` is `sum(apps_dict.values())` over the *whole*
per-day dict and whose app list is the stable descending sort truncated to
`top_apps`. -/
def get_daily_breakdown (dateOf : ℚ → Int) (usage_data : List UsageRecord)
    (top_apps : Nat) : List DailyBucket :=
  (List.insertionSort byDateDesc (daily_data dateOf usage_data)).map fun p =>
    { date := p.1
      total_duration_seconds := (p.2.map Prod.snd).sum
      apps := (List.insertionSort byTotalDesc p.2).take top_apps }

/-- Lookup in the outer (per-date) dict; `[]` when the date is absent. -/
def lookupApps (daily : List (Int × List (String × ℚ))) (d : Int) :
    List (String × ℚ) :=
  match daily with
  | [] => []
  | (k, apps) :: rest => if k = d then apps else lookupApps rest d

/-- Whether a record is bucketed under day `d`: it has a start time whose
calendar date is `d`. -/
def onDay (dateOf : ℚ → Int) (d : Int) (e : UsageRecord) : Bool :=
  match e.start_time with
  | none => false
  | some t => decide (dateOf t = d)

lemma lookupApps_updateDaily (daily : List (Int × List (String × ℚ)))
    (d0 : Int) (app : String) (dur : ℚ) (d : Int) :
    lookupApps (updateDaily daily d0 app dur) d =
      if d = d0 then addToTotals (lookupApps daily d0) app dur
      else lookupApps daily d := by
  induction daily with
  | nil =>
      by_cases h : d = d0
      · simp [updateDaily, lookupApps, h]
      · have h2 : ¬ d0 = d := fun hh => h hh.symm
        simp [updateDaily, lookupApps, h, h2]
  | cons hd tl ih =>
      obtain ⟨k, apps⟩ := hd
      by_cases hk : k = d0
      · by_cases hd' : d = d0
        · simp [updateDaily, lookupApps, hk, hd']
        · have h2 : ¬ d0 = d := fun hh => hd' hh.symm
          simp [updateDaily, lookupApps, hk, hd', h2]
      · by_cases hkd : k = d
        · have h2 : ¬ d = d0 := by
            rw [← hkd]
            exact fun hh => hk hh
          simp [updateDaily, lookupApps, hk, hkd, h2]
        · simp [updateDaily, lookupApps, hk, hkd, ih]

lemma daily_fold_total (dateOf : ℚ → Int) (usage_data : List UsageRecord)
    (acc : List (Int × List (String × ℚ))) (d : Int) :
    ((lookupApps
        (usage_data.foldl
          (fun acc e =>
            match e.start_time with
            | none => acc
            | some t => updateDaily acc (dateOf t) e.app_name e.duration_seconds)
          acc) d).map Prod.snd).sum =
      ((lookupApps acc d).map Prod.snd).sum +
        ((usage_data.filter (onDay dateOf d)).map UsageRecord.duration_seconds).sum := by
  induction usage_data generalizing acc with
  | nil => simp
  | cons e tl ih =>
      cases hst : e.start_time with
      | none =>
          have hfil : onDay dateOf d e = false := by simp [onDay, hst]
          simp only [List.foldl_cons, hst, List.filter_cons, hfil]
          exact ih acc
      | some t =>
          by_cases hday : dateOf t = d
          · have hfil : onDay dateOf d e = true := by simp [onDay, hst, hday]
            simp only [List.foldl_cons, hst, List.filter_cons, hfil,
              eq_self_iff_true, if_true]
            rw [ih, lookupApps_updateDaily, if_pos hday.symm, hday,
              sumSnd_addToTotals]
            simp only [List.map_cons, List.sum_cons]
            ring
          · have hfil : onDay dateOf d e = false := by simp [onDay, hst, hday]
            have hne : ¬ d = dateOf t := fun hh => hday hh.symm
            simp only [List.foldl_cons, hst, List.filter_cons, hfil,
              Bool.false_eq_true, if_false]
            rw [ih, lookupApps_updateDaily, if_neg hne]

lemma keys_updateDaily (daily : List (Int × List (String × ℚ))) (d : Int)
    (app : String) (dur : ℚ) :
    (updateDaily daily d app dur).map Prod.fst =
      if d ∈ daily.map Prod.fst then daily.map Prod.fst
      else daily.map Prod.fst ++ [d] := by
  induction daily with
  | nil => simp [updateDaily]
  | cons hd tl ih =>
      obtain ⟨k, apps⟩ := hd
      by_cases h : k = d
      · simp [updateDaily, h]
      · by_cases hmem : d ∈ tl.map Prod.fst
        · simp [updateDaily, h, ih, hmem, Ne.symm h]
        · simp [updateDaily, h, ih, hmem, Ne.symm h]

lemma nodup_keys_daily_fold (dateOf : ℚ → Int) (usage_data : List UsageRecord)
    (acc : List (Int × List (String × ℚ))) (h : (acc.map Prod.fst).Nodup) :
    ((usage_data.foldl
        (fun acc e =>
          match e.start_time with
          | none => acc
          | some t => updateDaily acc (dateOf t) e.app_name e.duration_seconds)
        acc).map Prod.fst).Nodup := by
  induction usage_data generalizing acc with
  | nil => simpa using h
  | cons e tl ih =>
      simp only [List.foldl_cons]
      cases hst : e.start_time with
      | none => exact ih acc h
      | some t =>
          refine ih _ ?_
          rw [keys_updateDaily]
          by_cases hmem : dateOf t ∈ acc.map Prod.fst
          · simpa [hmem] using h
          · simp [hmem, List.nodup_append, h]

lemma lookupApps_eq_of_mem (daily : List (Int × List (String × ℚ)))
    (k : Int) (apps : List (String × ℚ)) (hmem : (k, apps) ∈ daily)
    (hnd : (daily.map Prod.fst).Nodup) :
    lookupApps daily k = apps := by
  induction daily with
  | nil => cases hmem
  | cons hd tl ih =>
      obtain ⟨k0, apps0⟩ := hd
      rcases List.mem_cons.mp hmem with heq | htl
      · obtain ⟨h1, h2⟩ := Prod.mk.injEq .. ▸ heq
        simp [lookupApps, h1.symm, h2]
      · have hk : k0 ≠ k := by
          intro hk
          have : k ∈ tl.map Prod.fst :=
            List.mem_map.mpr ⟨(k, apps), htl, rfl⟩
          rw [hk] at hnd
          exact (List.nodup_cons.mp (by simpa using hnd)).1 this
        simp only [lookupApps, if_neg hk]
        exact ih htl ((List.nodup_cons.mp (by simpa using hnd)).2)

/-- C5: every `DailyBucket`'s `total_duration_seconds` equals the sum of
`duration_seconds` over *all* records of that calendar day (among records
with a start time), before the per-day app list is truncated to `top_apps`;
and the sequence of `(date, total)` pairs is identical for every choice of
`top_apps`. -/
theorem daily_bucket_totals (dateOf : ℚ → Int) (usage_data : List UsageRecord)
    (top_apps : Nat) :
    (∀ b ∈ get_daily_breakdown dateOf usage_data top_apps,
        b.total_duration_seconds =
          ((usage_data.filter (onDay dateOf b.date)).map
              UsageRecord.duration_seconds).sum) ∧
      (∀ other_top : Nat,
        (get_daily_breakdown dateOf usage_data top_apps).map
            (fun b => (b.date, b.total_duration_seconds)) =
          (get_daily_breakdown dateOf usage_data other_top).map
            (fun b => (b.date, b.total_duration_seconds))) := by
  constructor
  · intro b hb
    obtain ⟨p, hp, hpb⟩ := List.mem_map.mp hb
    have hpmem : p ∈ daily_data dateOf usage_data :=
      (List.perm_insertionSort byDateDesc _).subset hp
    have hnd : ((daily_data dateOf usage_data).map Prod.fst).Nodup :=
      nodup_keys_daily_fold dateOf usage_data [] (by simp)
    have hlook : lookupApps (daily_data dateOf usage_data) p.1 = p.2 :=
      lookupApps_eq_of_mem _ p.1 p.2 (by simpa using hpmem) hnd
    have htot := daily_fold_total dateOf usage_data [] p.1
    rw [show (usage_data.foldl
        (fun acc e =>
          match e.start_time with
          | none => acc
          | some t => updateDaily acc (dateOf t) e.app_name e.duration_seconds)
        []) = daily_data dateOf usage_data from rfl, hlook] at htot
    have hdate : b.date = p.1 := by rw [← hpb]
    have htotal : b.total_duration_seconds = (p.2.map Prod.snd).sum := by rw [← hpb]
    rw [htotal, hdate]
    simpa [lookupApps] using htot
  · intro other_top
    simp [get_daily_breakdown, List.map_map, Function.comp]

/-- C5 witness: a single-record list on day 0; the unique bucket's total
equals the filtered-sum of that day's durations, and the `(date, total)`
projection is unchanged between `top_apps = 1` and `top_apps = 7`. -/
theorem daily_bucket_totals_witness :
    ((⟨0, 5, [("A", 5)]⟩ : DailyBucket).total_duration_seconds =
        (([⟨"A", 5, some 1, some 6⟩].filter
            (onDay (fun _ => 0) (⟨0, 5, [("A", 5)]⟩ : DailyBucket).date)).map
            UsageRecord.duration_seconds).sum) ∧
      ((get_daily_breakdown (fun _ => 0) [⟨"A", 5, some 1, some 6⟩] 1).map
          (fun b => (b.date, b.total_duration_seconds)) =
        (get_daily_breakdown (fun _ => 0) [⟨"A", 5, some 1, some 6⟩] 7).map
          (fun b => (b.date, b.total_duration_seconds))) :=
  ⟨(daily_bucket_totals (fun _ => 0) [⟨"A", 5, some 1, some 6⟩] 1).1
      ⟨0, 5, [("A", 5)]⟩
      (by
        rw [show get_daily_breakdown (fun _ => 0) [⟨"A", 5, some 1, some 6⟩] 1 =
            [⟨0, 5, [("A", 5)]⟩] by
          norm_num [get_daily_breakdown, daily_data, updateDaily, addToTotals,
            List.insertionSort, List.orderedInsert]]
        exact List.mem_singleton_self _),
    (daily_bucket_totals (fun _ => 0) [⟨"A", 5, some 1, some 6⟩] 1).2 7⟩

/-- C7: a record whose `start_time` is `None` is excluded entirely from day
bucketing — removing it from anywhere in the input leaves every bucket
(dates, totals and app lists) unchanged, so it contributes to no bucket's
app list and to no bucket's total, and its presence never causes an error
(the embedding is a total function). -/
theorem missing_start_time_excluded (dateOf : ℚ → Int)
    (us₁ us₂ : List UsageRecord) (r : UsageRecord)
    (h : r.start_time = none) (top_apps : Nat) :
    get_daily_breakdown dateOf (us₁ ++ r :: us₂) top_apps =
      get_daily_breakdown dateOf (us₁ ++ us₂) top_apps := by
  simp [get_daily_breakdown, daily_data, List.foldl_append, h]

/-- C7 witness: a nonzero-duration record with no start time, inserted
between two dated records, leaves the daily breakdown unchanged. -/
theorem missing_start_time_excluded_witness :
    get_daily_breakdown (fun _ => 0)
        ([⟨"A", 5, some 1, some 6⟩] ++ ⟨"B", 7, none, some 9⟩ :: [⟨"C", 2, some 2, some 4⟩]) 10 =
      get_daily_breakdown (fun _ => 0)
        ([⟨"A", 5, some 1, some 6⟩] ++ [⟨"C", 2, some 2, some 4⟩]) 10 :=
  missing_start_time_excluded (fun _ => 0) [⟨"A", 5, some 1, some 6⟩]
    [⟨"C", 2, some 2, some 4⟩] ⟨"B", 7, none, some 9⟩ rfl 10

/-- A row of the source store's `ZOBJECT` table, with the columns read by
`get_app_usage` (`screentime.py` lines 72-81). -/
structure SourceRow where
  ZSTREAMNAME : String
  ZVALUESTRING : Option String
  ZSTARTDATE : Option ℚ
  ZENDDATE : Option ℚ
deriving Repr, DecidableEq

/-- `ORDER BY ZSTARTDATE DESC` (SQLite places `NULL` keys last in a
descending sort): row `x` may precede row `y`. -/
def byStartDesc (x y : SourceRow) : Bool :=
  match x.ZSTARTDATE, y.ZSTARTDATE with
  | some a, some b => decide (b ≤ a)
  | some _, none => true
  | none, some _ => false
  | none, none => true

/-- `x` precedes-or-equals `y` in the query's descending start order. -/
def byStartDescP (x y : SourceRow) : Prop := byStartDesc x y = true

instance : DecidableRel byStartDescP :=
  fun x y => inferInstanceAs (Decidable (byStartDesc x y = true))

/-- The `WHERE` clause of `get_app_usage`: stream `/app/usage`, non-NULL
`ZVALUESTRING`, and the optional native-epoch bounds `ZSTARTDATE >= start`
/ `ZENDDATE <= end` (an SQL comparison with a `NULL` column is not true, so
those rows are filtered out when a bound is supplied). -/
def rowSelected (start_param end_param : Option ℚ) (row : SourceRow) : Bool :=
  decide (row.ZSTREAMNAME = "/app/usage") && row.ZVALUESTRING.isSome &&
    (match start_param with
     | none => true
     | some s =>
         match row.ZSTARTDATE with
         | some t => decide (s ≤ t)
         | none => false) &&
    (match end_param with
     | none => true
     | some e =>
         match row.ZENDDATE with
         | some t => decide (t ≤ e)
         | none => false)

/-- Build the result dict of one query row (`screentime.py` lines 102-108):
`duration_seconds` is `ZENDDATE - ZSTARTDATE` with SQL `NULL` arithmetic
defaulted to 0 by `or 0`, and the timestamps go through
`apple_time_to_datetime`. -/
def rowToRecord (row : SourceRow) : UsageRecord :=
  { app_name := row.ZVALUESTRING.getD ""
    duration_seconds :=
      match row.ZSTARTDATE, row.ZENDDATE with
      | some a, some b => b - a
      | _, _ => 0
    start_time := apple_time_to_datetime row.ZSTARTDATE
    end_time := apple_time_to_datetime row.ZENDDATE }

/-- `get_app_usage` from `screentime.py`: convert the optional canonical
bounds to native-epoch parameters, run the filtering query ordered by start
descending, and normalize each row.  The source opens the database with a
read-only connection (`mode=ro`), so the query is embedded as a pure
function of the database contents. -/
def get_app_usage (db : List SourceRow) (start_date end_date : Option ℚ) :
    List UsageRecord :=
  (List.insertionSort byStartDescP
      (db.filter
        (rowSelected (start_date.map datetime_to_apple_time)
          (end_date.map datetime_to_apple_time)))).map rowToRecord

/-- The file system visible to the extraction path: a map from paths to
database contents (absent files are `none`). -/
def FileSystem : Type := String → Option (List SourceRow)

/-- `copy_database_to_temp` from `screentime.py`: the temporary path (in a
fresh, exclusively-owned `mkdtemp` directory) receives a copy of the
original file's contents; every other path is untouched. -/
def copy_database_to_temp (fs : FileSystem) (db_path temp_path : String) :
    FileSystem :=
  fun p => if p = temp_path then fs db_path else fs p

/-- The extraction pipeline: snapshot the source store with
`copy_database_to_temp`, then run `get_app_usage` on the private copy
(read-only).  Returns the resulting file system and the extracted
records. -/
def extraction_pipeline (fs : FileSystem) (db_path temp_path : String)
    (start_date end_date : Option ℚ) : FileSystem × List UsageRecord :=
  let fs2 := copy_database_to_temp fs db_path temp_path
  (fs2,
    match fs2 temp_path with
    | some db => get_app_usage db start_date end_date
    | none => [])

/-- C10: the extraction path never mutates the original source store file:
`get_app_usage` operates only on the private temporary copy made by
`copy_database_to_temp` and reads it through a read-only connection, so
(as long as the fresh private temp path is not the source path itself) the
original file's contents after the pipeline equal its contents before —
and indeed every path other than the private temp copy is untouched. -/
theorem extraction_preserves_source (fs : FileSystem)
    (db_path temp_path : String) (start_date end_date : Option ℚ)
    (h : temp_path ≠ db_path) :
    (extraction_pipeline fs db_path temp_path start_date end_date).1 db_path =
        fs db_path ∧
      (∀ p, p ≠ temp_path →
        (extraction_pipeline fs db_path temp_path start_date end_date).1 p = fs p) := by
  constructor
  · simp [extraction_pipeline, copy_database_to_temp, Ne.symm h]
  · intro p hp
    simp [extraction_pipeline, copy_database_to_temp, hp]

/-- C10 witness: with a one-row source store at path `orig` and temp path
`tmp`, the pipeline leaves `orig` (and every non-`tmp` path) unchanged. -/
theorem extraction_preserves_source_witness :
    (extraction_pipeline
          (fun p => if p = "orig" then some [⟨"/app/usage", some "A", some 1, some 2⟩] else none)
          "orig" "tmp" none none).1 "orig" =
        (fun p => if p = "orig" then some [⟨"/app/usage", some "A", some 1, some 2⟩] else none) "orig" ∧
      (∀ p, p ≠ "tmp" →
        (extraction_pipeline
            (fun p => if p = "orig" then some [⟨"/app/usage", some "A", some 1, some 2⟩] else none)
            "orig" "tmp" none none).1 p =
          (fun p => if p = "orig" then some [⟨"/app/usage", some "A", some 1, some 2⟩] else none) p) :=
  extraction_preserves_source
    (fun p => if p = "orig" then some [⟨"/app/usage", some "A", some 1, some 2⟩] else none)
    "orig" "tmp" none none (by decide)

/-- C9: Epoch conversion round-trips: converting a canonical timestamp to
the native (Apple) epoch with `datetime_to_apple_time` and back with
`apple_time_to_datetime` returns the original timestamp (exactly, in the
rational model; the conversions subtract and add the fixed offset
978307200). -/
theorem epoch_roundtrip (t : ℚ) :
    apple_time_to_datetime (some (datetime_to_apple_time t)) = some t := by
  simp [apple_time_to_datetime, datetime_to_apple_time]

end ScreenTime
